import Mathlib

/-!
Verification of `reinforceflow` (asynchronous n-step DQN agent and
experience-replay buffer) against its natural-language specification.

The development shallowly embeds the two source files:
  * `reinforceflow/core/experience.py` — the `ExperienceReplay` buffer
    (a `deque` with `maxlen`, uniform sampling without replacement);
  * `reinforceflow/agents/async_dqn.py` — the `AsyncDQNAgent.train`
    supervision loop and the `_ThreadDQNLearner.run` worker loop.

Machine floats are modelled as rationals; the `deque(maxlen=size)` is a
list with newest elements at the back; `random.sample` is modelled
nondeterministically as any choice of pairwise-distinct in-range
positions (it raises `ValueError` exactly when the requested sample size
exceeds the population size).
-/

namespace ReinforceFlow

/-! ## ExperienceReplay (`reinforceflow/core/experience.py`) -/

/-- State of an `ExperienceReplay` buffer.  `memory` models the
`deque(maxlen=maxlen)` with the oldest element first; `min_size` is the
clamped value stored by the constructor, which in Python can be a
negative integer, hence `ℤ`. -/
structure ExperienceReplay (α : Type) where
  memory : List α
  maxlen : ℕ
  batch_size : ℕ
  min_size : ℤ
  deriving Repr, DecidableEq

namespace ExperienceReplay

/-- `ExperienceReplay.__init__(size, min_size, batch_size)`: rejects
`min_size < batch_size` with a `ValueError`, otherwise stores
`min(size - batch_size, min_size)` as the effective minimum size and an
empty deque of capacity `size`. -/
def init (α : Type) (size min_size batch_size : ℕ) :
    Except String (ExperienceReplay α) :=
  if min_size < batch_size then
    Except.error ("Minimum replay size must be higher or equal to batch size (Got: "
      ++ toString batch_size ++ ")")
  else
    Except.ok { memory := []
                maxlen := size
                batch_size := batch_size
                min_size := min ((size : ℤ) - (batch_size : ℤ)) (min_size : ℤ) }

/-- `add(value)`: `deque.append` on a deque with `maxlen`; when the deque
is full the oldest element is evicted (for `maxlen = 0` the element is
discarded immediately). -/
def add (s : ExperienceReplay α) (v : α) : ExperienceReplay α :=
  let m := s.memory ++ [v]
  { s with memory := m.drop (m.length - s.maxlen) }

/-- Fold `add` over a list of values, oldest first. -/
def addAll (s : ExperienceReplay α) (l : List α) : ExperienceReplay α :=
  l.foldl add s

/-- `size` property: `len(self.memory)`. -/
def size (s : ExperienceReplay α) : ℕ :=
  s.memory.length

/-- `is_ready` property: `self.size >= self.min_size + self.batch_size`
(Python integer comparison, so the possibly negative `min_size` counts). -/
def is_ready (s : ExperienceReplay α) : Prop :=
  s.min_size + (s.batch_size : ℤ) ≤ (s.size : ℤ)

instance (s : ExperienceReplay α) : Decidable s.is_ready := by
  unfold is_ready; infer_instance

/-- `random.sample(self.memory, self.batch_size)` succeeds exactly when
the requested sample size does not exceed the population size. -/
def sample_ok (s : ExperienceReplay α) : Prop :=
  s.batch_size ≤ s.size

instance (s : ExperienceReplay α) : Decidable s.sample_ok := by
  unfold sample_ok; infer_instance

/-- A possible index choice of `random.sample`: `batch_size` pairwise
distinct positions, each inside the buffer. -/
def validIdx (s : ExperienceReplay α) (idx : List ℕ) : Prop :=
  idx.length = s.batch_size ∧ idx.Nodup ∧ ∀ i ∈ idx, i < s.memory.length

/-- The sample produced from an index choice (elements read off the
chosen buffer positions, `d` a junk default never used on valid
indices). -/
def sampleAt (s : ExperienceReplay α) (idx : List ℕ) (d : α) : List α :=
  idx.map (fun i => s.memory.getD i d)

end ExperienceReplay

/-! ## Shared helpers from `reinforceflow/misc.py` (not under `src/`) -/

/-- Modelled from the spec: `discount_rewards` of `reinforceflow/misc.py`
is not among the provided sources.  Per the spec it converts per-step
rewards into n-step discounted returns by a single backward pass: for
step `i` counting down from the end, `return[i] = reward[i] + gamma *
running_total`, where `running_total` starts at the bootstrap value `ev`
and is updated to `return[i]` after each step.  The backward pass is a
right fold carrying `(running_total, returns so far)`. -/
def discount_rewards (rewards : List ℚ) (gamma ev : ℚ) : List ℚ :=
  (rewards.foldr
    (fun r acc => (r + gamma * acc.1, (r + gamma * acc.1) :: acc.2))
    (ev, ([] : List ℚ))).2

/-- Modelled from the spec: `IncrementalAverage` of `reinforceflow/misc.py`
is not among the provided sources.  Per the spec it accumulates a running
mean; only `add` matters for the claims, so we keep the sum and the
count. -/
structure IncrementalAverage where
  sum : ℚ
  count : ℕ
  deriving Repr, DecidableEq

/-- `IncrementalAverage.add(value)`: record one more value. -/
def IncrementalAverage.add (a : IncrementalAverage) (v : ℚ) : IncrementalAverage :=
  { sum := a.sum + v, count := a.count + 1 }

/-! ## `_ThreadDQNLearner.run` (`reinforceflow/agents/async_dqn.py`) -/

namespace ThreadLearner

/-- `np.clip(x, lo, hi)` on scalars. -/
def clip (x lo hi : ℚ) : ℚ :=
  min (max x lo) hi

/-- `np.max` of a vector of action values (the prediction arrays the
agent works with are nonempty, so the default for `[]` is irrelevant). -/
def listMax : List ℚ → ℚ
  | [] => 0
  | x :: xs => xs.foldl max x

/-- Result of one `env.step(action)` call: observations are opaque ids,
the reward is the raw (unclipped) scalar. -/
structure EnvStep where
  reward : ℚ
  term : Bool
  nextObs : ℕ
  deriving Repr, DecidableEq

/-- Result of the inner batch-collection `while` loop of
`_ThreadDQNLearner.run`: the clipped rewards appended to
`batch_rewards` (in order), the observation and `term` flag left by the
last `env.step`, and the updated `reward_accum`. -/
structure BatchResult where
  rewards : List ℚ
  obs : ℕ
  term : Bool
  accum : ℚ
  deriving Repr, DecidableEq

/-- The inner loop `while not term and len(batch_obs) < self.batch_size`
of `_ThreadDQNLearner.run`, with the deterministic environment given as
`stepFn` (policy and `batch_obs`/`batch_actions` bookkeeping elided: the
claims are about rewards).  Each iteration steps the environment, adds
the raw reward to `reward_accum`, clips the reward to `[-1, 1]` and
appends it to the batch; the loop stops at termination or once `fuel`
(the remaining batch capacity) runs out. -/
def collectBatch (stepFn : ℕ → EnvStep) : ℕ → ℕ → ℚ → BatchResult
  | 0, obs, accum => ⟨[], obs, false, accum⟩
  | fuel + 1, obs, accum =>
    let e := stepFn obs
    let accum1 := accum + e.reward
    let r := clip e.reward (-1) 1
    if e.term then ⟨[r], e.nextObs, true, accum1⟩
    else
      let rest := collectBatch stepFn fuel e.nextObs accum1
      ⟨r :: rest.rewards, rest.obs, rest.term, rest.accum⟩

/-- Specification-side ghost list: the raw (unclipped) rewards the
environment emits along the same trajectory `collectBatch` walks. -/
def rawRewards (stepFn : ℕ → EnvStep) : ℕ → ℕ → List ℚ
  | 0, _ => []
  | fuel + 1, obs =>
    let e := stepFn obs
    if e.term then [e.reward] else e.reward :: rawRewards stepFn fuel e.nextObs

/-- The two running averages the worker reports. -/
structure LearnerLog where
  ep_reward : IncrementalAverage
  ep_q : IncrementalAverage
  deriving Repr, DecidableEq

/-- What the post-batch section of `_ThreadDQNLearner.run` produces. -/
structure IterResult where
  expected : ℚ
  log : LearnerLog
  accum : ℚ
  returns : List ℚ
  deriving Repr, DecidableEq

/-- Lines 254-262 of `async_dqn.py`: `expected_reward = 0`; if the batch
ended without termination, `expected_reward` becomes the maximum of
`global_agent.target_predict` at the final observation and is added to
`ep_q`; otherwise `ep_reward.add(reward_accum)` and `reward_accum = 0`;
finally the clipped batch rewards become discounted returns bootstrapped
from `expected_reward`. -/
def processBatch (targetPredict : ℕ → List ℚ) (gamma : ℚ)
    (log : LearnerLog) (b : BatchResult) : IterResult :=
  if b.term then
    { expected := 0
      log := { log with ep_reward := log.ep_reward.add b.accum }
      accum := 0
      returns := discount_rewards b.rewards gamma 0 }
  else
    let expected := listMax (targetPredict b.obs)
    { expected := expected
      log := { log with ep_q := log.ep_q.add expected }
      accum := b.accum
      returns := discount_rewards b.rewards gamma expected }

end ThreadLearner

/-! ## `AsyncDQNAgent.train` supervision loop (`async_dqn.py`, lines 120-155) -/

namespace AsyncDQN

/-- What the supervision loop can observe at the top of one iteration:
the shared observation counter, whether any worker thread is still
alive, and whether a `KeyboardInterrupt` is raised during this
iteration body (rendering is elided, i.e. `render=False`). -/
structure WorldStep where
  obsCounter : ℤ
  anyLive : Bool
  interrupt : Bool
  deriving Repr, DecidableEq

/-- Observable actions of `AsyncDQNAgent.train`. -/
inductive TrainEvent where
  | writeSummary
  | saveWeights
  | targetUpdate
  | setRequestStop
  | closeWriter
  deriving Repr, DecidableEq

/-- Mutable state of the supervision loop. -/
structure LoopState where
  lastLogStep : ℤ
  lastTargetUpdate : ℤ
  requestStop : Bool
  deriving Repr, DecidableEq

/-- One body of the `while` loop (lines 132-147): if the iteration
raises `KeyboardInterrupt`, the handler sets `request_stop` and the loop
continues; otherwise the log/checkpoint block runs when
`step - last_log_step >= log_freq` (a `_write_summary` then a
`save_weights`), and the target-network refresh when
`step - last_target_update >= target_freq`. -/
def superviseBody (logFreq targetFreq : ℤ) (s : LoopState) (w : WorldStep) :
    LoopState × List TrainEvent :=
  if w.interrupt then
    ({ s with requestStop := true }, [TrainEvent.setRequestStop])
  else
    let p1 :=
      if logFreq ≤ w.obsCounter - s.lastLogStep then
        ({ s with lastLogStep := w.obsCounter },
         [TrainEvent.writeSummary, TrainEvent.saveWeights])
      else (s, [])
    let p2 :=
      if targetFreq ≤ w.obsCounter - p1.1.lastTargetUpdate then
        ({ p1.1 with lastTargetUpdate := w.obsCounter }, [TrainEvent.targetUpdate])
      else (p1.1, [])
    (p2.1, p1.2 ++ p2.2)

/-- The supervision loop `while has_live_threads() and self.obs_counter <
steps` run over a finite observation trace; returns the final loop
state, the emitted events and the part of the trace never reached
because the loop condition failed. -/
def superviseLoop (steps logFreq targetFreq : ℤ) :
    List WorldStep → LoopState → LoopState × List TrainEvent × List WorldStep
  | [], s => (s, [], [])
  | w :: ws, s =>
    if w.anyLive = true ∧ w.obsCounter < steps then
      let b := superviseBody logFreq targetFreq s w
      let rest := superviseLoop steps logFreq targetFreq ws b.1
      (rest.1, b.2 ++ rest.2.1, rest.2.2)
    else (s, [], w :: ws)

/-- `AsyncDQNAgent.train` after the threads are started (lines 123-152):
`request_stop = False`, the supervision loop runs, and after it exits
the agent saves weights a final time and closes the summary writer
(the per-thread `close()` calls that follow are no-ops). -/
def train (steps logFreq targetFreq startObs : ℤ) (ws : List WorldStep) :
    LoopState × List TrainEvent :=
  let s0 : LoopState :=
    { lastLogStep := startObs, lastTargetUpdate := startObs, requestStop := false }
  let r := superviseLoop steps logFreq targetFreq ws s0
  (r.1, r.2.1 ++ [TrainEvent.saveWeights, TrainEvent.closeWriter])

/-- Validation and resource-creation prefix of `AsyncDQNAgent.train`
(lines 80-112): `num_threads < 1` raises a `ValueError` before any
thread or environment is created; otherwise one environment copy and
one thread learner are created per requested thread (modelled by their
indices). -/
def trainSetup (num_threads : ℤ) : Except String (List ℕ) :=
  if num_threads < 1 then
    Except.error ("Number of threads must be >= 1 (Got: " ++ toString num_threads ++ ").")
  else
    Except.ok (List.range num_threads.toNat)

/-- `AsyncDQNAgent.train_on_batch` (lines 154-155): raises
`NotImplementedError` immediately, touching no state (`σ` stands for
the whole mutable state of the agent). -/
def train_on_batch (s : σ) : Except String σ :=
  Except.error "Training on batch is not supported. Use `train` method instead."

end AsyncDQN

/-- `_ThreadDQNLearner.train_on_batch` (lines 287-288): raises
`NotImplementedError` immediately, touching no state. -/
def ThreadLearner.train_on_batch (s : σ) : Except String σ :=
  Except.error "Use `AsyncDQNAgent.train`."

namespace ExperienceReplay

lemma memory_add (s : ExperienceReplay α) (v : α) :
    (s.add v).memory =
      (s.memory ++ [v]).drop ((s.memory.length + 1) - s.maxlen) := by
  simp [add]

lemma maxlen_add (s : ExperienceReplay α) (v : α) :
    (s.add v).maxlen = s.maxlen := rfl

lemma batch_size_add (s : ExperienceReplay α) (v : α) :
    (s.add v).batch_size = s.batch_size := rfl

lemma min_size_add (s : ExperienceReplay α) (v : α) :
    (s.add v).min_size = s.min_size := rfl

lemma length_memory_add (s : ExperienceReplay α) (v : α) :
    (s.add v).memory.length = min (s.memory.length + 1) s.maxlen := by
  simp [memory_add]
  omega

lemma length_memory_add_le (s : ExperienceReplay α) (v : α)
    (h : s.memory.length ≤ s.maxlen) :
    (s.add v).memory.length ≤ s.maxlen := by
  rw [length_memory_add]; omega

lemma addAll_cons (s : ExperienceReplay α) (v : α) (l : List α) :
    s.addAll (v :: l) = (s.add v).addAll l := rfl

lemma maxlen_addAll (l : List α) (s : ExperienceReplay α) :
    (s.addAll l).maxlen = s.maxlen := by
  induction l generalizing s with
  | nil => rfl
  | cons v l ih => rw [addAll_cons, ih, maxlen_add]

lemma batch_size_addAll (l : List α) (s : ExperienceReplay α) :
    (s.addAll l).batch_size = s.batch_size := by
  induction l generalizing s with
  | nil => rfl
  | cons v l ih => rw [addAll_cons, ih, batch_size_add]

lemma min_size_addAll (l : List α) (s : ExperienceReplay α) :
    (s.addAll l).min_size = s.min_size := by
  induction l generalizing s with
  | nil => rfl
  | cons v l ih => rw [addAll_cons, ih, min_size_add]

/-- Characterization of the deque after a sequence of `add`s: the result
keeps the suffix of `s.memory ++ l` that fits into `maxlen`. -/
lemma memory_addAll (l : List α) (s : ExperienceReplay α)
    (h : s.memory.length ≤ s.maxlen) :
    (s.addAll l).memory =
      (s.memory ++ l).drop ((s.memory.length + l.length) - s.maxlen) := by
  induction l generalizing s with
  | nil =>
      have h0 : s.memory.length - s.maxlen = 0 := by omega
      simp [addAll, h0]
  | cons v l ih =>
      have hinv := length_memory_add_le s v h
      have hlen : (s.add v).memory.length = min (s.memory.length + 1) s.maxlen :=
        length_memory_add s v
      have hk : s.memory.length + 1 - s.maxlen ≤ (s.memory ++ [v]).length := by
        rw [List.length_append, List.length_cons, List.length_nil]
        omega
      calc (s.addAll (v :: l)).memory
          = ((s.add v).addAll l).memory := rfl
        _ = ((s.add v).memory ++ l).drop
              (((s.add v).memory.length + l.length) - (s.add v).maxlen) := ih _ hinv
        _ = (((s.memory ++ [v]).drop (s.memory.length + 1 - s.maxlen)) ++ l).drop
              (((s.add v).memory.length + l.length) - s.maxlen) := by
            rw [memory_add, maxlen_add]
        _ = (((s.memory ++ [v]) ++ l).drop (s.memory.length + 1 - s.maxlen)).drop
              (((s.add v).memory.length + l.length) - s.maxlen) := by
            rw [List.drop_append_of_le_length hk]
        _ = ((s.memory ++ [v]) ++ l).drop ((s.memory.length + 1 - s.maxlen) +
              (((s.add v).memory.length + l.length) - s.maxlen)) := by
            rw [List.drop_drop]
        _ = (s.memory ++ (v :: l)).drop ((s.memory.length + (v :: l).length) - s.maxlen) := by
            rw [List.append_assoc, List.singleton_append]
            congr 1
            simp only [List.length_cons]
            omega

lemma size_addAll_le (l : List α) (s : ExperienceReplay α)
    (h : s.memory.length ≤ s.maxlen) :
    (s.addAll l).size ≤ s.maxlen := by
  have := memory_addAll l s h
  unfold size
  rw [this, List.length_drop, List.length_append]
  omega

end ExperienceReplay

/-! ## Claims about the experience-replay buffer -/

/-- C7: for every construction of ExperienceReplay with requested
min_size at least batch_size, the stored min_size equals
min(capacity - batch_size, requested min_size); in particular
capacity 10, batch_size 4, min_size 9 gives effective min_size 6. -/
theorem C7_min_size_clamp (cap mn bs : ℕ) (h : bs ≤ mn) :
    (∃ buf : ExperienceReplay ℕ,
        ExperienceReplay.init ℕ cap mn bs = Except.ok buf
        ∧ buf.min_size = min ((cap : ℤ) - (bs : ℤ)) (mn : ℤ))
    ∧ (∃ buf : ExperienceReplay ℕ,
        ExperienceReplay.init ℕ 10 9 4 = Except.ok buf ∧ buf.min_size = 6) := by
  constructor
  · refine ⟨{ memory := [], maxlen := cap, batch_size := bs,
              min_size := min ((cap : ℤ) - (bs : ℤ)) (mn : ℤ) }, ?_, rfl⟩
    unfold ExperienceReplay.init
    rw [if_neg (by omega)]
  · exact ⟨⟨[], 10, 4, 6⟩, by rfl, by rfl⟩

/-- C7 witness: the clamp evaluated at capacity 10, batch size 4,
requested minimum 9. -/
theorem C7_min_size_clamp_witness :
    (∃ buf : ExperienceReplay ℕ,
        ExperienceReplay.init ℕ 10 9 4 = Except.ok buf
        ∧ buf.min_size = min ((10 : ℤ) - (4 : ℤ)) (9 : ℤ))
    ∧ (∃ buf : ExperienceReplay ℕ,
        ExperienceReplay.init ℕ 10 9 4 = Except.ok buf ∧ buf.min_size = 6) :=
  C7_min_size_clamp 10 9 4 (by norm_num)

/-- C10: the constructor accepts capacity smaller than batch_size as
long as requested min_size is at least batch_size; the stored min_size
is then negative, is_ready becomes true with fewer than batch_size
elements present, and sampling fails even though is_ready holds. -/
theorem C10_degenerate_capacity (cap mn bs : ℕ) (hmb : bs ≤ mn) (hcap : cap < bs)
    (l : List ℕ) (hlen : l.length = cap) :
    ∃ buf : ExperienceReplay ℕ,
      ExperienceReplay.init ℕ cap mn bs = Except.ok buf
      ∧ buf.min_size < 0
      ∧ (buf.addAll l).size < bs
      ∧ (buf.addAll l).is_ready
      ∧ ¬ (buf.addAll l).sample_ok := by
  have hmem : (ExperienceReplay.addAll
      { memory := [], maxlen := cap, batch_size := bs,
        min_size := min ((cap : ℤ) - (bs : ℤ)) (mn : ℤ) } l).memory = l := by
    rw [ExperienceReplay.memory_addAll l _ (by simp)]
    simp only [List.nil_append, List.length_nil, Nat.zero_add]
    rw [hlen, Nat.sub_self, List.drop_zero]
  refine ⟨{ memory := [], maxlen := cap, batch_size := bs,
            min_size := min ((cap : ℤ) - (bs : ℤ)) (mn : ℤ) }, ?_, ?_, ?_, ?_, ?_⟩
  · unfold ExperienceReplay.init
    rw [if_neg (by omega)]
  · show min ((cap : ℤ) - (bs : ℤ)) (mn : ℤ) < 0
    omega
  · unfold ExperienceReplay.size
    rw [hmem, hlen]
    exact hcap
  · unfold ExperienceReplay.is_ready ExperienceReplay.size
    rw [ExperienceReplay.min_size_addAll, ExperienceReplay.batch_size_addAll, hmem, hlen]
    show min ((cap : ℤ) - (bs : ℤ)) (mn : ℤ) + (bs : ℤ) ≤ ((cap : ℕ) : ℤ)
    omega
  · unfold ExperienceReplay.sample_ok ExperienceReplay.size
    rw [ExperienceReplay.batch_size_addAll, hmem, hlen]
    show ¬ bs ≤ cap
    omega

/-- C10 witness: capacity 2, batch size 4, requested minimum 4, after
two insertions. -/
theorem C10_degenerate_capacity_witness :
    ∃ buf : ExperienceReplay ℕ,
      ExperienceReplay.init ℕ 2 4 4 = Except.ok buf
      ∧ buf.min_size < 0
      ∧ (buf.addAll [7, 8]).size < 4
      ∧ (buf.addAll [7, 8]).is_ready
      ∧ ¬ (buf.addAll [7, 8]).sample_ok :=
  C10_degenerate_capacity 2 4 4 (by norm_num) (by norm_num) [7, 8] rfl

/-- C5 counterexample: a buffer the constructor accepts (capacity 2,
batch size 4, requested minimum 4) reaches a state where is_ready holds
but random.sample must fail, because only 2 elements are present while 4
are requested. -/
theorem C5_counterexample :
    ∃ buf : ExperienceReplay ℕ,
      ExperienceReplay.init ℕ 2 4 4 = Except.ok buf
      ∧ (buf.addAll [0, 1]).is_ready
      ∧ ¬ (buf.addAll [0, 1]).sample_ok := by
  exact ⟨⟨[], 2, 4, -2⟩, by rfl, by decide, by decide⟩

/-- C5 (amended): for every ExperienceReplay accepted by the constructor
whose capacity is at least batch_size, whenever is_ready holds sampling
succeeds and every possible sample consists of exactly batch_size
elements read off pairwise-distinct in-range buffer positions, hence
drawn only from the elements currently present. -/
theorem C5_sample_ready (cap mn bs : ℕ) (hmb : bs ≤ mn) (hcap : bs ≤ cap)
    (buf : ExperienceReplay ℕ)
    (hinit : ExperienceReplay.init ℕ cap mn bs = Except.ok buf)
    (l : List ℕ) (hready : (buf.addAll l).is_ready) :
    (buf.addAll l).sample_ok
    ∧ (∃ idx, (buf.addAll l).validIdx idx)
    ∧ ∀ idx, (buf.addAll l).validIdx idx →
        ((buf.addAll l).sampleAt idx 0).length = bs
        ∧ idx.Nodup
        ∧ ∀ x ∈ (buf.addAll l).sampleAt idx 0, x ∈ (buf.addAll l).memory := by
  unfold ExperienceReplay.init at hinit
  rw [if_neg (by omega)] at hinit
  have hfields := Except.ok.inj hinit
  have hbs0 : buf.batch_size = bs := by rw [← hfields]
  have hms0 : buf.min_size = min ((cap : ℤ) - (bs : ℤ)) (mn : ℤ) := by rw [← hfields]
  have hbs : (buf.addAll l).batch_size = bs := by
    rw [ExperienceReplay.batch_size_addAll, hbs0]
  have hms : (buf.addAll l).min_size = min ((cap : ℤ) - (bs : ℤ)) (mn : ℤ) := by
    rw [ExperienceReplay.min_size_addAll, hms0]
  have hsize : bs ≤ (buf.addAll l).size := by
    unfold ExperienceReplay.is_ready at hready
    rw [hbs, hms] at hready
    omega
  refine ⟨?_, ⟨List.range bs, ?_, List.nodup_range bs, ?_⟩, ?_⟩
  · unfold ExperienceReplay.sample_ok
    rw [hbs]
    exact hsize
  · rw [List.length_range, hbs]
  · intro i hi
    have hib := List.mem_range.mp hi
    unfold ExperienceReplay.size at hsize
    omega
  · intro idx hidx
    obtain ⟨hlen2, hnodup, hmemidx⟩ := hidx
    refine ⟨?_, hnodup, ?_⟩
    · unfold ExperienceReplay.sampleAt
      rw [List.length_map, hlen2, hbs]
    · intro x hx
      unfold ExperienceReplay.sampleAt at hx
      obtain ⟨i, hi, rfl⟩ := List.mem_map.mp hx
      rw [List.getD_eq_getElem _ _ (hmemidx i hi)]
      exact List.getElem_mem (hmemidx i hi)

/-- C5 witness: capacity 4, batch size 2, requested minimum 2, after
four insertions the buffer is ready and sampling succeeds. -/
theorem C5_sample_ready_witness :
    (2 ≤ 2) ∧ (2 ≤ 4)
    ∧ ExperienceReplay.init ℕ 4 2 2 = Except.ok (⟨[], 4, 2, 2⟩ : ExperienceReplay ℕ)
    ∧ ((⟨[], 4, 2, 2⟩ : ExperienceReplay ℕ).addAll [5, 6, 7, 8]).is_ready
    ∧ (let buf : ExperienceReplay ℕ := ⟨[], 4, 2, 2⟩
       (buf.addAll [5, 6, 7, 8]).sample_ok
       ∧ (∃ idx, (buf.addAll [5, 6, 7, 8]).validIdx idx)
       ∧ ∀ idx, (buf.addAll [5, 6, 7, 8]).validIdx idx →
           ((buf.addAll [5, 6, 7, 8]).sampleAt idx 0).length = 2
           ∧ idx.Nodup
           ∧ ∀ x ∈ (buf.addAll [5, 6, 7, 8]).sampleAt idx 0,
               x ∈ (buf.addAll [5, 6, 7, 8]).memory) :=
  ⟨by norm_num, by norm_num, by rfl, by decide,
   C5_sample_ready 4 2 2 (by norm_num) (by norm_num) ⟨[], 4, 2, 2⟩ (by rfl)
     [5, 6, 7, 8] (by decide)⟩

/-- C6: for every buffer built with requested min_size at least
batch_size, the size never exceeds the capacity along any add sequence;
after adding capacity + k elements (k positive) the memory is exactly
the last capacity elements added, so the oldest k are evicted; is_ready
holds exactly when the size reaches the clamped minimum plus the batch
size, and in particular holds after those capacity + k additions. -/
theorem C6_fifo_eviction (cap mn bs k : ℕ) (hmb : bs ≤ mn) (hk : 0 < k)
    (buf : ExperienceReplay ℕ)
    (hinit : ExperienceReplay.init ℕ cap mn bs = Except.ok buf)
    (adds : List ℕ) (hlen : adds.length = cap + k) :
    (∀ l : List ℕ, (buf.addAll l).size ≤ cap)
    ∧ (buf.addAll adds).memory = adds.drop k
    ∧ (∀ x ∈ adds.take k, x ∉ adds.drop k → x ∉ (buf.addAll adds).memory)
    ∧ (∀ l : List ℕ, ((buf.addAll l).is_ready ↔
          min ((cap : ℤ) - (bs : ℤ)) (mn : ℤ) + (bs : ℤ) ≤ ((buf.addAll l).size : ℤ)))
    ∧ (buf.addAll adds).is_ready := by
  unfold ExperienceReplay.init at hinit
  rw [if_neg (by omega)] at hinit
  have hfields := Except.ok.inj hinit
  have hm0 : buf.memory = [] := by rw [← hfields]
  have hmax : buf.maxlen = cap := by rw [← hfields]
  have hbs0 : buf.batch_size = bs := by rw [← hfields]
  have hms0 : buf.min_size = min ((cap : ℤ) - (bs : ℤ)) (mn : ℤ) := by rw [← hfields]
  have hmem : (buf.addAll adds).memory = adds.drop k := by
    rw [ExperienceReplay.memory_addAll adds buf (by rw [hm0, hmax]; simp)]
    rw [hm0, hmax]
    simp only [List.nil_append, List.length_nil, Nat.zero_add]
    rw [hlen, Nat.add_sub_cancel_left]
  have hiff : ∀ l : List ℕ, ((buf.addAll l).is_ready ↔
      min ((cap : ℤ) - (bs : ℤ)) (mn : ℤ) + (bs : ℤ) ≤ ((buf.addAll l).size : ℤ)) := by
    intro l
    unfold ExperienceReplay.is_ready
    rw [ExperienceReplay.min_size_addAll, ExperienceReplay.batch_size_addAll, hms0, hbs0]
  refine ⟨?_, hmem, ?_, hiff, ?_⟩
  · intro l
    have := ExperienceReplay.size_addAll_le l buf (by rw [hm0, hmax]; simp)
    rw [hmax] at this
    exact this
  · intro x _ hxdrop
    rw [hmem]
    exact hxdrop
  · rw [hiff]
    unfold ExperienceReplay.size
    rw [hmem, List.length_drop, hlen]
    omega

/-- C6 witness: capacity 3, batch size 2, requested minimum 2, five
insertions (k = 2). -/
theorem C6_fifo_eviction_witness :
    (let buf : ExperienceReplay ℕ := ⟨[], 3, 2, 1⟩
     (buf.addAll [10, 20, 30, 40, 50]).memory = [30, 40, 50]
     ∧ (buf.addAll [10, 20, 30, 40, 50]).is_ready) := by
  have h := C6_fifo_eviction 3 2 2 2 (by norm_num) (by norm_num) ⟨[], 3, 2, 1⟩ rfl
    [10, 20, 30, 40, 50] rfl
  exact ⟨h.2.1, h.2.2.2.2⟩

/-! ## Claims about the worker loop computations -/

lemma discount_foldr_fst (rs : List ℚ) (γ ev : ℚ) :
    (rs.foldr
      (fun r acc => (r + γ * acc.1, (r + γ * acc.1) :: acc.2))
      (ev, ([] : List ℚ))).1
      = (discount_rewards rs γ ev).headD ev := by
  cases rs with
  | nil => rfl
  | cons r rs => rfl

lemma discount_rewards_cons (r : ℚ) (rs : List ℚ) (γ ev : ℚ) :
    discount_rewards (r :: rs) γ ev =
      (r + γ * (discount_rewards rs γ ev).headD ev) :: discount_rewards rs γ ev := by
  cases rs with
  | nil => rfl
  | cons x xs => rfl

lemma discount_rewards_length (rs : List ℚ) (γ ev : ℚ) :
    (discount_rewards rs γ ev).length = rs.length := by
  induction rs with
  | nil => rfl
  | cons r rs ih =>
      rw [discount_rewards_cons, List.length_cons, List.length_cons, ih]

lemma discount_rewards_getLast? (rs : List ℚ) (γ ev : ℚ) (x : ℚ)
    (hx : rs.getLast? = some x) :
    (discount_rewards rs γ ev).getLast? = some (x + γ * ev) := by
  induction rs with
  | nil => simp at hx
  | cons r rs ih =>
      cases rs with
      | nil =>
          simp only [List.getLast?_singleton, Option.some.injEq] at hx
          subst hx
          rfl
      | cons y ys =>
          rw [List.getLast?_cons_cons] at hx
          have hnn : discount_rewards (y :: ys) γ ev ≠ [] := by
            have := discount_rewards_length (y :: ys) γ ev
            intro hc
            rw [hc] at this
            simp at this
          rw [discount_rewards_cons]
          cases hdr : discount_rewards (y :: ys) γ ev with
          | nil => exact absurd hdr hnn
          | cons d ds =>
              rw [List.getLast?_cons_cons]
              rw [← hdr]
              exact ih hx

lemma discount_rewards_recurrence (rs : List ℚ) (γ ev : ℚ) (i : ℕ)
    (h : i + 1 < rs.length) :
    ∃ ri di1, rs[i]? = some ri
      ∧ (discount_rewards rs γ ev)[i + 1]? = some di1
      ∧ (discount_rewards rs γ ev)[i]? = some (ri + γ * di1) := by
  induction rs generalizing i with
  | nil => simp at h
  | cons r rs ih =>
      cases i with
      | zero =>
          cases rs with
          | nil => simp at h
          | cons x xs =>
              rw [discount_rewards_cons r (x :: xs), discount_rewards_cons x xs]
              exact ⟨r, x + γ * (discount_rewards xs γ ev).headD ev, rfl, by simp, by simp⟩
      | succ i =>
          have h' : i + 1 < rs.length := by
            rw [List.length_cons] at h
            omega
          obtain ⟨ri, di1, h1, h2, h3⟩ := ih i h'
          rw [discount_rewards_cons]
          refine ⟨ri, di1, ?_, ?_, ?_⟩
          · rw [List.getElem?_cons_succ]
            exact h1
          · rw [List.getElem?_cons_succ]
            exact h2
          · rw [List.getElem?_cons_succ]
            exact h3

/-- C2: the n-step returns satisfy the backward recurrence: same length
as the rewards, last return equals last reward plus gamma times the
bootstrap, every earlier return equals its reward plus gamma times the
next return; concretely rewards [1,1,1] with gamma 0.9 and bootstrap 0
give [2.71, 1.9, 1.0]. -/
theorem C2_discounted_returns (rs : List ℚ) (γ b : ℚ) :
    (discount_rewards rs γ b).length = rs.length
    ∧ (∀ x, rs.getLast? = some x →
        (discount_rewards rs γ b).getLast? = some (x + γ * b))
    ∧ (∀ i : ℕ, i + 1 < rs.length →
        ∃ ri di1, rs[i]? = some ri
          ∧ (discount_rewards rs γ b)[i + 1]? = some di1
          ∧ (discount_rewards rs γ b)[i]? = some (ri + γ * di1))
    ∧ discount_rewards [1, 1, 1] (9 / 10) 0 = [271 / 100, 19 / 10, 1] := by
  refine ⟨discount_rewards_length rs γ b,
    fun x hx => discount_rewards_getLast? rs γ b x hx,
    fun i hi => discount_rewards_recurrence rs γ b i hi, ?_⟩
  have hnil : ∀ γ ev : ℚ, discount_rewards [] γ ev = [] := fun _ _ => rfl
  simp only [discount_rewards_cons, hnil, List.headD_nil, List.headD_cons]
  norm_num

/-- C2 witness: the recurrence hypotheses discharged on the concrete
batch [1,1,1] with gamma 0.9 and bootstrap 0. -/
theorem C2_discounted_returns_witness :
    ([1, 1, 1] : List ℚ).getLast? = some 1
    ∧ (discount_rewards [1, 1, 1] (9 / 10) 0).getLast? = some (1 + 9 / 10 * 0)
    ∧ (∃ ri di1, ([1, 1, 1] : List ℚ)[0]? = some ri
        ∧ (discount_rewards [1, 1, 1] (9 / 10) 0)[1]? = some di1
        ∧ (discount_rewards [1, 1, 1] (9 / 10) 0)[0]? = some (ri + 9 / 10 * di1)) := by
  have h := C2_discounted_returns [1, 1, 1] (9 / 10) 0
  exact ⟨by decide, h.2.1 1 (by decide), h.2.2.1 0 (by decide)⟩

lemma collectBatch_spec (stepFn : ℕ → ThreadLearner.EnvStep) (fuel : ℕ) :
    ∀ (obs : ℕ) (accum : ℚ),
      (ThreadLearner.collectBatch stepFn fuel obs accum).rewards
        = (ThreadLearner.rawRewards stepFn fuel obs).map
            (fun r => ThreadLearner.clip r (-1) 1)
      ∧ (ThreadLearner.collectBatch stepFn fuel obs accum).accum
        = accum + (ThreadLearner.rawRewards stepFn fuel obs).sum := by
  induction fuel with
  | zero =>
      intro obs accum
      constructor <;> simp [ThreadLearner.collectBatch, ThreadLearner.rawRewards]
  | succ n ih =>
      intro obs accum
      by_cases h : (stepFn obs).term = true
      · constructor <;>
          simp [ThreadLearner.collectBatch, ThreadLearner.rawRewards, h]
      · have h1 := (ih (stepFn obs).nextObs (accum + (stepFn obs).reward)).1
        have h2 := (ih (stepFn obs).nextObs (accum + (stepFn obs).reward)).2
        constructor
        · simp [ThreadLearner.collectBatch, ThreadLearner.rawRewards, h, h1]
        · simp [ThreadLearner.collectBatch, ThreadLearner.rawRewards, h, h2, add_assoc]

/-- C4: the rewards stored in the batch are the raw rewards clipped to
[-1, 1] (5 becomes 1, -3 becomes -1, in-range values pass through),
while the running episode-reward accumulator receives the raw unclipped
rewards. -/
theorem C4_reward_clipping (stepFn : ℕ → ThreadLearner.EnvStep)
    (fuel obs : ℕ) (accum : ℚ) :
    (ThreadLearner.collectBatch stepFn fuel obs accum).rewards
      = (ThreadLearner.rawRewards stepFn fuel obs).map
          (fun r => ThreadLearner.clip r (-1) 1)
    ∧ (ThreadLearner.collectBatch stepFn fuel obs accum).accum
      = accum + (ThreadLearner.rawRewards stepFn fuel obs).sum
    ∧ ThreadLearner.clip 5 (-1) 1 = 1
    ∧ ThreadLearner.clip (-3) (-1) 1 = -1
    ∧ (∀ r : ℚ, -1 ≤ r → r ≤ 1 → ThreadLearner.clip r (-1) 1 = r) := by
  refine ⟨(collectBatch_spec stepFn fuel obs accum).1,
    (collectBatch_spec stepFn fuel obs accum).2, by decide, by decide, ?_⟩
  intro r h1 h2
  unfold ThreadLearner.clip
  rw [max_eq_left h1, min_eq_left h2]

/-- C4 witness: a two-step environment emitting rewards 5 and -3, and
the pass-through case at 1/2. -/
theorem C4_reward_clipping_witness :
    (ThreadLearner.collectBatch (fun o => ⟨if o = 0 then 5 else -3, false, o + 1⟩)
        2 0 0).rewards
      = (ThreadLearner.rawRewards (fun o => ⟨if o = 0 then 5 else -3, false, o + 1⟩)
          2 0).map (fun r => ThreadLearner.clip r (-1) 1)
    ∧ (ThreadLearner.collectBatch (fun o => ⟨if o = 0 then 5 else -3, false, o + 1⟩)
        2 0 0).accum
      = 0 + (ThreadLearner.rawRewards (fun o => ⟨if o = 0 then 5 else -3, false, o + 1⟩)
          2 0).sum
    ∧ ThreadLearner.clip (1 / 2) (-1) 1 = 1 / 2 := by
  have h := C4_reward_clipping (fun o => ⟨if o = 0 then 5 else -3, false, o + 1⟩) 2 0 0
  exact ⟨h.1, h.2.1, h.2.2.2.2 (1 / 2) (by norm_num) (by norm_num)⟩

/-- C3: if the batch ended without termination, the bootstrap value is
the maximum target-network estimate at the final observation and is
added to the running max-Q average; if it ended with termination, the
bootstrap is 0 and the accumulated unclipped episode reward is added to
the running reward average and reset to 0; either way the returns are
discounted with that bootstrap. -/
theorem C3_bootstrap (targetPredict : ℕ → List ℚ) (γ : ℚ)
    (log : ThreadLearner.LearnerLog) (b : ThreadLearner.BatchResult) :
    (b.term = false →
        (ThreadLearner.processBatch targetPredict γ log b).expected
            = ThreadLearner.listMax (targetPredict b.obs)
        ∧ (ThreadLearner.processBatch targetPredict γ log b).log.ep_q
            = log.ep_q.add (ThreadLearner.listMax (targetPredict b.obs))
        ∧ (ThreadLearner.processBatch targetPredict γ log b).log.ep_reward
            = log.ep_reward
        ∧ (ThreadLearner.processBatch targetPredict γ log b).accum = b.accum)
    ∧ (b.term = true →
        (ThreadLearner.processBatch targetPredict γ log b).expected = 0
        ∧ (ThreadLearner.processBatch targetPredict γ log b).log.ep_reward
            = log.ep_reward.add b.accum
        ∧ (ThreadLearner.processBatch targetPredict γ log b).accum = 0
        ∧ (ThreadLearner.processBatch targetPredict γ log b).log.ep_q = log.ep_q)
    ∧ (ThreadLearner.processBatch targetPredict γ log b).returns
        = discount_rewards b.rewards γ
            (ThreadLearner.processBatch targetPredict γ log b).expected := by
  refine ⟨?_, ?_, ?_⟩
  · intro h
    simp [ThreadLearner.processBatch, h]
  · intro h
    simp [ThreadLearner.processBatch, h]
  · by_cases h : b.term = true <;>
      simp [ThreadLearner.processBatch, h]

/-- C3 witness: both exit modes of a batch on a concrete target network
and log state. -/
theorem C3_bootstrap_witness :
    ((ThreadLearner.processBatch (fun _ => [2, 5, 3]) (1 / 2) ⟨⟨0, 0⟩, ⟨0, 0⟩⟩
        ⟨[1], 7, false, 4⟩).expected
          = ThreadLearner.listMax [2, 5, 3]
      ∧ (ThreadLearner.processBatch (fun _ => [2, 5, 3]) (1 / 2) ⟨⟨0, 0⟩, ⟨0, 0⟩⟩
          ⟨[1], 7, false, 4⟩).log.ep_q
          = IncrementalAverage.add ⟨0, 0⟩ (ThreadLearner.listMax [2, 5, 3])
      ∧ (ThreadLearner.processBatch (fun _ => [2, 5, 3]) (1 / 2) ⟨⟨0, 0⟩, ⟨0, 0⟩⟩
          ⟨[1], 7, false, 4⟩).log.ep_reward = ⟨0, 0⟩
      ∧ (ThreadLearner.processBatch (fun _ => [2, 5, 3]) (1 / 2) ⟨⟨0, 0⟩, ⟨0, 0⟩⟩
          ⟨[1], 7, false, 4⟩).accum = 4)
    ∧ ((ThreadLearner.processBatch (fun _ => [2, 5, 3]) (1 / 2) ⟨⟨0, 0⟩, ⟨0, 0⟩⟩
          ⟨[1], 7, true, 4⟩).expected = 0
      ∧ (ThreadLearner.processBatch (fun _ => [2, 5, 3]) (1 / 2) ⟨⟨0, 0⟩, ⟨0, 0⟩⟩
          ⟨[1], 7, true, 4⟩).log.ep_reward
          = IncrementalAverage.add ⟨0, 0⟩ 4
      ∧ (ThreadLearner.processBatch (fun _ => [2, 5, 3]) (1 / 2) ⟨⟨0, 0⟩, ⟨0, 0⟩⟩
          ⟨[1], 7, true, 4⟩).accum = 0
      ∧ (ThreadLearner.processBatch (fun _ => [2, 5, 3]) (1 / 2) ⟨⟨0, 0⟩, ⟨0, 0⟩⟩
          ⟨[1], 7, true, 4⟩).log.ep_q = ⟨0, 0⟩) :=
  ⟨(C3_bootstrap (fun _ => [2, 5, 3]) (1 / 2) ⟨⟨0, 0⟩, ⟨0, 0⟩⟩ ⟨[1], 7, false, 4⟩).1 rfl,
   (C3_bootstrap (fun _ => [2, 5, 3]) (1 / 2) ⟨⟨0, 0⟩, ⟨0, 0⟩⟩ ⟨[1], 7, true, 4⟩).2.1 rfl⟩

/-! ## Claims about the fail-fast guards -/

/-- C8: configuration errors fail fast: train with fewer than one thread
errors before creating any thread or environment, and constructing
ExperienceReplay with min_size below batch_size errors; neither is
coerced. -/
theorem C8_fail_fast :
    (∀ n : ℤ, n < 1 → AsyncDQN.trainSetup n =
        Except.error ("Number of threads must be >= 1 (Got: " ++ toString n ++ ")."))
    ∧ (∀ size mn bs : ℕ, mn < bs → ExperienceReplay.init ℕ size mn bs =
        Except.error ("Minimum replay size must be higher or equal to batch size (Got: "
          ++ toString bs ++ ")")) := by
  constructor
  · intro n hn
    unfold AsyncDQN.trainSetup
    rw [if_pos hn]
  · intro size mn bs h
    unfold ExperienceReplay.init
    rw [if_pos h]

/-- C8 witness: zero threads and a replay buffer with minimum 3 below
batch size 4. -/
theorem C8_fail_fast_witness :
    AsyncDQN.trainSetup 0 =
      Except.error ("Number of threads must be >= 1 (Got: " ++ toString (0 : ℤ) ++ ").")
    ∧ ExperienceReplay.init ℕ 10 3 4 =
      Except.error ("Minimum replay size must be higher or equal to batch size (Got: "
        ++ toString (4 : ℕ) ++ ")") :=
  ⟨C8_fail_fast.1 0 (by norm_num), C8_fail_fast.2 10 3 4 (by norm_num)⟩

/-- C9: train_on_batch on the asynchronous agent and on a thread learner
fails immediately with an error directing the caller to the train entry
point, and never returns a successor state. -/
theorem C9_train_on_batch_guard :
    (∀ (σ : Type) (s : σ), AsyncDQN.train_on_batch s =
        Except.error "Training on batch is not supported. Use `train` method instead."
      ∧ ∀ s' : σ, AsyncDQN.train_on_batch s ≠ Except.ok s')
    ∧ (∀ (σ : Type) (s : σ), ThreadLearner.train_on_batch s =
        Except.error "Use `AsyncDQNAgent.train`."
      ∧ ∀ s' : σ, ThreadLearner.train_on_batch s ≠ Except.ok s') := by
  refine ⟨fun σ s => ⟨rfl, fun s' h => ?_⟩, fun σ s => ⟨rfl, fun s' h => ?_⟩⟩
  · exact Except.noConfusion h
  · exact Except.noConfusion h

/-! ## Claims about the supervision loop of `AsyncDQNAgent.train` -/

lemma superviseBody_requestStop_mono (lf tf : ℤ) (s : AsyncDQN.LoopState)
    (w : AsyncDQN.WorldStep) (h : s.requestStop = true) :
    (AsyncDQN.superviseBody lf tf s w).1.requestStop = true := by
  unfold AsyncDQN.superviseBody
  split
  · rfl
  · dsimp only
    split <;> split <;> simp [h]

lemma superviseLoop_requestStop_mono (st lf tf : ℤ) (ws : List AsyncDQN.WorldStep)
    (s : AsyncDQN.LoopState) (h : s.requestStop = true) :
    (AsyncDQN.superviseLoop st lf tf ws s).1.requestStop = true := by
  induction ws generalizing s with
  | nil => exact h
  | cons w ws ih =>
      unfold AsyncDQN.superviseLoop
      split
      · exact ih _ (superviseBody_requestStop_mono lf tf s w h)
      · exact h

/-- C1: after the supervision loop exits, train always emits a final
checkpoint save followed by a writer close; the loop consumes every
iteration whose condition (some thread alive and step budget not
reached) holds, so a KeyboardInterrupt never exits the loop by itself;
an interrupt caught at the top iteration leaves request_stop set; and
whenever the loop stops early, the iteration it stopped at violates the
loop condition. -/
theorem C1_final_save_and_close (steps logFreq targetFreq startObs : ℤ)
    (ws : List AsyncDQN.WorldStep) :
    (∃ evs, (AsyncDQN.train steps logFreq targetFreq startObs ws).2
        = evs ++ [AsyncDQN.TrainEvent.saveWeights, AsyncDQN.TrainEvent.closeWriter])
    ∧ (∀ s : AsyncDQN.LoopState,
        (∀ w ∈ ws, w.anyLive = true ∧ w.obsCounter < steps) →
        (AsyncDQN.superviseLoop steps logFreq targetFreq ws s).2.2 = [])
    ∧ (∀ (s : AsyncDQN.LoopState) (w : AsyncDQN.WorldStep),
        w.interrupt = true → w.anyLive = true → w.obsCounter < steps →
        (AsyncDQN.superviseLoop steps logFreq targetFreq (w :: ws) s).1.requestStop
          = true)
    ∧ (∀ (s : AsyncDQN.LoopState) (w : AsyncDQN.WorldStep)
        (ws2 : List AsyncDQN.WorldStep),
        (AsyncDQN.superviseLoop steps logFreq targetFreq ws s).2.2 = w :: ws2 →
        ¬ (w.anyLive = true ∧ w.obsCounter < steps)) := by
  refine ⟨⟨(AsyncDQN.superviseLoop steps logFreq targetFreq ws
      { lastLogStep := startObs, lastTargetUpdate := startObs,
        requestStop := false }).2.1, rfl⟩, ?_, ?_, ?_⟩
  · intro s hall
    induction ws generalizing s with
    | nil => rfl
    | cons w ws ih =>
        unfold AsyncDQN.superviseLoop
        rw [if_pos (hall w (List.mem_cons_self w ws))]
        exact ih _ (fun w' hw' => hall w' (List.mem_cons_of_mem w hw'))
  · intro s w hi hl ho
    have hb : (AsyncDQN.superviseBody logFreq targetFreq s w).1.requestStop = true := by
      unfold AsyncDQN.superviseBody
      rw [if_pos hi]
    unfold AsyncDQN.superviseLoop
    rw [if_pos ⟨hl, ho⟩]
    exact superviseLoop_requestStop_mono steps logFreq targetFreq ws _ hb
  · intro s w ws2 hrest
    induction ws generalizing s with
    | nil => exact absurd hrest (by simp [AsyncDQN.superviseLoop])
    | cons w' ws' ih =>
        unfold AsyncDQN.superviseLoop at hrest
        by_cases hc : w'.anyLive = true ∧ w'.obsCounter < steps
        · rw [if_pos hc] at hrest
          exact ih _ hrest
        · rw [if_neg hc] at hrest
          obtain ⟨rfl, rfl⟩ := List.cons.inj hrest
          exact hc

/-- C1 witness: a two-iteration trace whose second iteration raises a
KeyboardInterrupt, evaluated on the concrete loop state. -/
theorem C1_final_save_and_close_witness :
    (∃ evs, (AsyncDQN.train 5 2 3 0
        [⟨0, true, false⟩, ⟨1, true, true⟩]).2
        = evs ++ [AsyncDQN.TrainEvent.saveWeights, AsyncDQN.TrainEvent.closeWriter])
    ∧ (AsyncDQN.superviseLoop 5 2 3
        [⟨0, true, false⟩, ⟨1, true, true⟩] ⟨0, 0, false⟩).2.2 = []
    ∧ (AsyncDQN.superviseLoop 5 2 3
        (⟨0, true, true⟩ :: [⟨0, true, false⟩, ⟨1, true, true⟩])
        ⟨0, 0, false⟩).1.requestStop = true := by
  have h := C1_final_save_and_close 5 2 3 0 [⟨0, true, false⟩, ⟨1, true, true⟩]
  exact ⟨h.1, h.2.1 ⟨0, 0, false⟩ (by decide),
    h.2.2.1 ⟨0, 0, false⟩ ⟨0, true, true⟩ rfl rfl (by decide)⟩

/-- C9 witness: the guards evaluated on a unit state. -/
theorem C9_train_on_batch_guard_witness :
    (AsyncDQN.train_on_batch () =
        Except.error "Training on batch is not supported. Use `train` method instead."
      ∧ ∀ s' : Unit, AsyncDQN.train_on_batch () ≠ Except.ok s')
    ∧ (ThreadLearner.train_on_batch () =
        Except.error "Use `AsyncDQNAgent.train`."
      ∧ ∀ s' : Unit, ThreadLearner.train_on_batch () ≠ Except.ok s') :=
  ⟨C9_train_on_batch_guard.1 Unit (), C9_train_on_batch_guard.2 Unit ()⟩

end ReinforceFlow
